import Mathlib

/-!
Verification of the graph read/write core of the engine repository
(`package graph`: `UpsertAddress`, `NamesToAddrs`, `generatePairsFromAddrMap`,
`UpsertA`, `UpsertAAAA`, `addrRecord`, `buildIPAddress`).

The asset store (`g.DB`) is modelled as an abstract oracle: a record of pure
functions, one per operation of the consumed store interface
(`FindByContent`, `FindById`, `OutgoingRelations`, `Create`).  Every
embedded operation additionally returns the list of store calls it makes,
in order, so that frame conditions (the read path never calls `Create`),
normalization of lookup keys, and error propagation are all stated about
observable behaviour.
-/

namespace Graph

/-- An IP address value, modelling Go's `netip.Addr` as produced by
`netip.ParseAddr`: either an IPv4 address (four octets) or an IPv6 address
(eight 16-bit groups).  Zones are not modelled (no input used below carries
one). -/
inductive IPAddr
  | v4 (a b c d : Nat)
  | v6 (gs : List Nat)
deriving DecidableEq

/-- Model of `netip.Addr.Is4`: true exactly for IPv4 addresses. -/
def IPAddr.is4 : IPAddr → Bool
  | .v4 _ _ _ _ => true
  | .v6 _ => false

/-- Model of `netip.Addr.Is6`: true exactly for IPv6 addresses (an address parsed
from a 16-byte form, including 4-in-6 mapped addresses). -/
def IPAddr.is6 : IPAddr → Bool
  | .v4 _ _ _ _ => false
  | .v6 _ => true

/-- Split a character list at every occurrence of `sep` (`strings.Split`
restricted to a one-character separator). -/
def splitChar (sep : Char) (acc : List Char) : List Char → List (List Char)
  | [] => [acc.reverse]
  | c :: rest =>
    if c = sep then acc.reverse :: splitChar sep [] rest
    else splitChar sep (c :: acc) rest

/-- Split a character list at every non-overlapping occurrence of `::`. -/
def splitColons (acc : List Char) : List Char → List (List Char)
  | [] => [acc.reverse]
  | ':' :: ':' :: rest => acc.reverse :: splitColons [] rest
  | c :: rest => splitColons (c :: acc) rest

/-- One decimal field of a dotted-quad IPv4 literal: 1–3 digits, value at
most 255, no leading zero (as in `netip`'s `parseIPv4`). -/
def parseIPv4Field (cs : List Char) : Option Nat :=
  if cs.length = 0 ∨ 3 < cs.length then none
  else if ¬ cs.all (fun c => c.isDigit) then none
  else if 1 < cs.length ∧ cs.head? = some '0' then none
  else
    let v := cs.foldl (fun acc c => acc * 10 + (c.toNat - 48)) 0
    if v ≤ 255 then some v else none

/-- Model of `netip`'s `parseIPv4`: exactly four valid decimal fields separated by
dots. -/
def parseIPv4Core (cs : List Char) : Option IPAddr :=
  match (splitChar '.' [] cs).mapM parseIPv4Field with
  | some [a, b, c, d] => some (.v4 a b c d)
  | _ => none

/-- Value of one hexadecimal digit. -/
def hexVal (c : Char) : Nat :=
  if c.isDigit then c.toNat - 48
  else if 'a' ≤ c ∧ c ≤ 'f' then c.toNat - 87
  else if 'A' ≤ c ∧ c ≤ 'F' then c.toNat - 55
  else 0

/-- Whether a character is a hexadecimal digit (either case). -/
def isHexDigitChar (c : Char) : Bool :=
  c.isDigit ∨ ('a' ≤ c ∧ c ≤ 'f') ∨ ('A' ≤ c ∧ c ≤ 'F')

/-- One group of an IPv6 literal: 1–4 hexadecimal digits. -/
def parseHexGroup (cs : List Char) : Option Nat :=
  if cs.length = 0 ∨ 4 < cs.length then none
  else if ¬ cs.all isHexDigitChar then none
  else some (cs.foldl (fun acc c => acc * 16 + hexVal c) 0)

/-- Parse a colon-separated run of IPv6 groups.  When `v4ok` is true the
final group may instead be an embedded dotted-quad IPv4 literal,
contributing two 16-bit groups (as in `netip`'s `parseIPv6`). -/
def parseGroups (v4ok : Bool) : List (List Char) → Option (List Nat)
  | [] => some []
  | [g] =>
    match parseHexGroup g with
    | some v => some [v]
    | none =>
      if v4ok then
        match parseIPv4Core g with
        | some (.v4 a b c d) => some [a * 256 + b, c * 256 + d]
        | _ => none
      else none
  | g :: rest =>
    match parseHexGroup g with
    | some v => (parseGroups v4ok rest).map (fun vs => v :: vs)
    | none => none

/-- Groups of one piece of an IPv6 literal (one side of a `::`, or the
whole literal when no `::` is present). -/
def parsePiece (v4ok : Bool) (piece : List Char) : Option (List Nat) :=
  if piece = [] then some [] else parseGroups v4ok (splitChar ':' [] piece)

/-- Model of `netip`'s `parseIPv6`: eight groups, or a single `::` expanding to at
least one zero group, with an optional embedded IPv4 literal in final
position.  Zoned literals (`%`) are not modelled. -/
def parseIPv6Core (cs : List Char) : Option IPAddr :=
  if cs.contains '%' then none
  else
    match splitColons [] cs with
    | [whole] =>
      match parsePiece true whole with
      | some gs => if gs.length = 8 then some (.v6 gs) else none
      | none => none
    | [l, r] =>
      match parsePiece false l, parsePiece true r with
      | some gl, some gr =>
        if gl.length + gr.length ≤ 7 then
          some (.v6 (gl ++ List.replicate (8 - gl.length - gr.length) 0 ++ gr))
        else none
      | _, _ => none
    | _ => none

/-- Go's `netip.ParseAddr`: dispatch on the first `.`, `:` or `%` in the
string — a `.` first means IPv4, a `:` first means IPv6, anything else
(including `%` first or neither present) fails. -/
def parseAddr (s : String) : Option IPAddr :=
  match s.data.find? (fun c => c = '.' ∨ c = ':' ∨ c = '%') with
  | some '.' => parseIPv4Core s.data
  | some ':' => parseIPv6Core s.data
  | _ => none

/-- Model of `netip.Addr.String`, up to choice of canonical form: dotted quad for
IPv4; for IPv6 the eight groups in lowercase hex joined by colons
(uncompressed — Go compresses with `::`, but the claims below use only that
equal address values render to equal strings, and that the rendered form
re-parses). -/
def IPAddr.render : IPAddr → String
  | .v4 a b c d =>
    Nat.repr a ++ "." ++ Nat.repr b ++ "." ++ Nat.repr c ++ "." ++ Nat.repr d
  | .v6 gs => String.intercalate ":" (gs.map (fun g => String.mk (Nat.toDigits 16 g)))

/-- The payload of a graph node: an FQDN (`domain.FQDN`, which carries a
name string) or an IP address (`network.IPAddress`, which carries a parsed
address and a family-tag string).  Other open-asset-model kinds play no
role in the shown code beyond failing its type assertions, which the
`ipAddress`/`fqdn` mismatch already exercises. -/
inductive OamAsset
  | fqdn (name : String)
  | ipAddress (address : IPAddr) (ty : String)
deriving DecidableEq

/-- Embedding of `types.Asset`: a stored node with a stable identifier and its payload. -/
structure Asset where
  id : Nat
  asset : OamAsset
deriving DecidableEq

/-- Embedding of `types.Relation`, as consumed by the shown code: the relation type and
the identifier of the destination asset (`rel.ToAsset.ID`). -/
structure Relation where
  rtype : String
  toId : Nat
deriving DecidableEq

/-- One call made against the store, recorded for frame and normalization
reasoning. -/
inductive Call
  | findByContent (template : OamAsset) (since : Nat)
  | findById (id : Nat) (since : Nat)
  | outgoingRelations (a : Asset) (since : Nat) (reltypes : List String)
  | create (parent : Option Asset) (rtype : String) (payload : Option OamAsset)
deriving DecidableEq

/-- True exactly on `Create` calls. -/
def Call.isCreate : Call → Bool
  | .create _ _ _ => true
  | _ => false

/-- The consumed store interface (`g.DB`), as an abstract oracle of pure
functions.  Time is a `Nat` cutoff.  `create`'s payload is an `Option`
because Go's `UpsertAddress` passes the possibly-nil result of
`buildIPAddress` straight through as the `oam.Asset` argument. -/
structure DB where
  findByContent : OamAsset → Nat → Except String (List Asset)
  findById : Nat → Nat → Except String Asset
  outgoingRelations : Asset → Nat → List String → Except String (List Relation)
  create : Option Asset → String → Option OamAsset → Except String Asset

/-- Embedding of `network.IPAddress`: a parsed address plus its family-tag string. -/
structure IPAddress where
  address : IPAddr
  ty : String
deriving DecidableEq

/-- Embedding of `NameAddrPair`: one name / address association produced by the read
path. -/
structure NameAddrPair where
  fqdnName : String
  addr : IPAddress
deriving DecidableEq

/-- Embedding of `buildIPAddress`: parse the string; on success tag `IPv4`/`IPv6` by
family; on failure (or an address of neither family) return nothing. -/
def buildIPAddress (addr : String) : Option IPAddress :=
  match parseAddr addr with
  | none => none
  | some ip =>
    if ip.is4 then some ⟨ip, "IPv4"⟩
    else if ip.is6 then some ⟨ip, "IPv6"⟩
    else none

/-- Embedding of `UpsertAddress`: `return g.DB.Create(nil, "", buildIPAddress(addr))` —
the (possibly nil) built address is passed straight to the store. -/
def upsertAddress (db : DB) (addr : String) : Except String Asset × List Call :=
  let payload := (buildIPAddress addr).map (fun ip => OamAsset.ipAddress ip.address ip.ty)
  (db.create none "" payload, [Call.create none "" payload])

/-- Go: `strings.ToLower(strings.TrimSpace(s))` — surrounding whitespace
stripped, then case-folded to lowercase (ASCII case folding in this
model). -/
def normalizeName (s : String) : String :=
  String.mk ((((s.data.dropWhile Char.isWhitespace).reverse.dropWhile
    Char.isWhitespace).reverse).map Char.toLower)

/-- Modelled from the spec: `UpsertFQDN` is repository code not among the
shown source files (only its caller `addrRecord` is shown).  Per the spec,
the Upsert path idempotently creates or finds the Name asset, and Name
values are case-folded to lowercase and trimmed of surrounding whitespace
before any storage operation; idempotent creation is the store's `Create`
with no parent relation. -/
def upsertFQDN (db : DB) (name : String) : Except String Asset × List Call :=
  let n := normalizeName name
  (db.create none "" (some (.fqdn n)), [Call.create none "" (some (.fqdn n))])

/-- Embedding of `addrRecord`: upsert the FQDN, then build and validate the address
(failing if it does not build), then create the address as a child of the
name via an edge of the given record type. -/
def addrRecord (db : DB) (fqdn addr rrtype : String) : Except String Asset × List Call :=
  match upsertFQDN db fqdn with
  | (.error e, t) => (.error e, t)
  | (.ok name, t) =>
    match buildIPAddress addr with
    | none => (.error "failed to build the OAM IPAddress", t)
    | some ip =>
      let payload := some (OamAsset.ipAddress ip.address ip.ty)
      (db.create (some name) rrtype payload, t ++ [Call.create (some name) rrtype payload])

/-- Embedding of `UpsertA`. -/
def upsertA (db : DB) (fqdn addr : String) : Except String Asset × List Call :=
  addrRecord db fqdn addr "a_record"

/-- Embedding of `UpsertAAAA`. -/
def upsertAAAA (db : DB) (fqdn addr : String) : Except String Asset × List Call :=
  addrRecord db fqdn addr "aaaa_record"

/-- The name-collection loop of `NamesToAddrs`: for each input name not
already seen, look it up by content (an FQDN template built from the name
exactly as given); on success with a non-empty result keep the first asset
and mark the name seen.  Lookup errors and empty results leave the name
unmarked and contribute nothing. -/
def findNames (db : DB) (since : Nat) : List String → List String → List Asset × List Call
  | [], _ => ([], [])
  | name :: rest, seen =>
    if name ∈ seen then findNames db since rest seen
    else
      match db.findByContent (.fqdn name) since with
      | .ok (a :: _) =>
        let r := findNames db since rest (name :: seen)
        (a :: r.1, Call.findByContent (.fqdn name) since :: r.2)
      | .ok [] =>
        let r := findNames db since rest seen
        (r.1, Call.findByContent (.fqdn name) since :: r.2)
      | .error _ =>
        let r := findNames db since rest seen
        (r.1, Call.findByContent (.fqdn name) since :: r.2)

/-- The inner loop of one alias hop: follow the first relation whose
destination asset resolves by id; relations whose resolution fails are
skipped; if none resolves, stay at the current asset. -/
def followFirst (db : DB) (since : Nat) (cur : Asset) : List Relation → Asset × List Call
  | [] => (cur, [])
  | rel :: rest =>
    match db.findById rel.toId since with
    | .ok found => (found, [Call.findById rel.toId since])
    | .error _ =>
      let r := followFirst db since cur rest
      (r.1, Call.findById rel.toId since :: r.2)

/-- The relation types queried at hop `i` of the alias walk: both
`cname_record` and `srv_record` at hop 1, only `cname_record` later. -/
def hopTypes (i : Nat) : List String :=
  if i = 1 then ["cname_record", "srv_record"] else ["cname_record"]

/-- The alias-chain loop of `NamesToAddrs` (`for i := 1; i <= 10; i++`),
with `fuel` remaining iterations and `i` the current hop number: query
outgoing relations of the current asset; on a store error or an empty
result stop at the current asset; otherwise follow the first resolvable
relation and continue. -/
def aliasWalk (db : DB) (since : Nat) : Nat → Nat → Asset → Asset × List Call
  | 0, _, cur => (cur, [])
  | fuel + 1, i, cur =>
    match db.outgoingRelations cur since (hopTypes i) with
    | .ok rels =>
      if rels.isEmpty then (cur, [Call.outgoingRelations cur since (hopTypes i)])
      else
        let r1 := followFirst db since cur rels
        let r2 := aliasWalk db since fuel (i + 1) r1.1
        (r2.1, Call.outgoingRelations cur since (hopTypes i) :: (r1.2 ++ r2.2))
    | .error _ => (cur, [Call.outgoingRelations cur since (hopTypes i)])

/-- The alias walk as entered by `NamesToAddrs`: ten iterations starting at
hop 1. -/
def aliasChain (db : DB) (since : Nat) (a : Asset) : Asset × List Call :=
  aliasWalk db since 10 1 a

/-- One resolution target: the originating FQDN (from the starting asset's
payload) and the terminal asset reached by the alias walk. -/
structure Target where
  fqdnName : String
  asset : Asset
deriving DecidableEq

/-- The target-construction loop of `NamesToAddrs`: each found asset whose
payload is an FQDN contributes a target pairing that FQDN with the end of
its alias chain; other assets are skipped. -/
def buildTargets (db : DB) (since : Nat) : List Asset → List Target × List Call
  | [] => ([], [])
  | a :: rest =>
    match a.asset with
    | .fqdn name =>
      let r1 := aliasChain db since a
      let r2 := buildTargets db since rest
      (⟨name, r1.1⟩ :: r2.1, r1.2 ++ r2.2)
    | _ => buildTargets db since rest

/-- The name→address-set mapping (`map[string]*stringset.Set`), as an
association list in insertion order with duplicate-free value lists. -/
abbrev AddrMap := List (String × List String)

/-- Embedding of `if _, found := nameAddrMap[name]; !found { nameAddrMap[name] = stringset.New() }`. -/
def mapEnsure (m : AddrMap) (name : String) : AddrMap :=
  if name ∈ m.map Prod.fst then m else m ++ [(name, [])]

/-- Embedding of `nameAddrMap[name].Insert(addr)`: set insertion into the entry keyed by
`name`. -/
def mapInsert (m : AddrMap) (name : String) (addr : String) : AddrMap :=
  m.map (fun e =>
    if e.1 = name then (e.1, if addr ∈ e.2 then e.2 else e.2 ++ [addr]) else e)

/-- The inner aggregation loop over one target's address relations: ensure
the originating name's entry exists, resolve the destination asset, and on
an address payload insert its rendered string; resolution failures and
non-address payloads are skipped. -/
def aggRels (db : DB) (since : Nat) (name : String) :
    List Relation → AddrMap → AddrMap × List Call
  | [], m => (m, [])
  | rel :: rest, m =>
    let m1 := mapEnsure m name
    match db.findById rel.toId since with
    | .ok found =>
      match found.asset with
      | .ipAddress ip _ =>
        let r := aggRels db since name rest (mapInsert m1 name ip.render)
        (r.1, Call.findById rel.toId since :: r.2)
      | _ =>
        let r := aggRels db since name rest m1
        (r.1, Call.findById rel.toId since :: r.2)
    | .error _ =>
      let r := aggRels db since name rest m1
      (r.1, Call.findById rel.toId since :: r.2)

/-- The aggregation loop of `NamesToAddrs`: for each target, query its
outgoing `a_record`/`aaaa_record` relations; on a store error or an empty
result the target contributes nothing; otherwise fold the relations into
the map under the target's originating name. -/
def aggregate (db : DB) (since : Nat) : List Target → AddrMap → AddrMap × List Call
  | [], m => (m, [])
  | tar :: rest, m =>
    match db.outgoingRelations tar.asset since ["a_record", "aaaa_record"] with
    | .ok rels =>
      if rels.isEmpty then
        let r := aggregate db since rest m
        (r.1, Call.outgoingRelations tar.asset since ["a_record", "aaaa_record"] :: r.2)
      else
        let r1 := aggRels db since tar.fqdnName rels m
        let r2 := aggregate db since rest r1.1
        (r2.1, Call.outgoingRelations tar.asset since ["a_record", "aaaa_record"] :: (r1.2 ++ r2.2))
    | .error _ =>
      let r := aggregate db since rest m
      (r.1, Call.outgoingRelations tar.asset since ["a_record", "aaaa_record"] :: r.2)

/-- The inner loop of `generatePairsFromAddrMap` over one entry's address
strings: parse each; on success emit a pair tagged by family; parse
failures emit nothing. -/
def genPairsAddrs (name : String) : List String → List NameAddrPair
  | [] => []
  | addr :: rest =>
    match parseAddr addr with
    | some ip =>
      ⟨name, ⟨ip, if ip.is4 then "IPv4" else if ip.is6 then "IPv6" else ""⟩⟩ ::
        genPairsAddrs name rest
    | none => genPairsAddrs name rest

/-- Embedding of `generatePairsFromAddrMap`. -/
def generatePairsFromAddrMap : AddrMap → List NameAddrPair
  | [] => []
  | e :: rest => genPairsAddrs e.1 e.2 ++ generatePairsFromAddrMap rest

/-- Embedding of `NamesToAddrs`: collect findable names, derive alias-chain targets,
aggregate address strings per originating name, and generate pairs, with a
distinct error at each empty stage. -/
def namesToAddrs (db : DB) (since : Nat) (names : List String) :
    Except String (List NameAddrPair) × List Call :=
  let r1 := findNames db since names []
  if r1.1.isEmpty then (.error "no names to query", r1.2)
  else
    let r2 := buildTargets db since r1.1
    if r2.1.isEmpty then (.error "no targets to query", r1.2 ++ r2.2)
    else
      let r3 := aggregate db since r2.1 []
      if r3.1.isEmpty then (.error "no pairs to process", r1.2 ++ r2.2 ++ r3.2)
      else
        let pairs := generatePairsFromAddrMap r3.1
        if pairs.isEmpty then (.error "no addresses were discovered", r1.2 ++ r2.2 ++ r3.2)
        else (.ok pairs, r1.2 ++ r2.2 ++ r3.2)

/-- Number of `OutgoingRelations` queries (= alias hops attempted) in a
call trace. -/
def countOutgoing (t : List Call) : Nat :=
  t.countP (fun c => match c with | .outgoingRelations _ _ _ => true | _ => false)

/-- A concrete store: `www.x.com` aliases via CNAME to `cdn.x.com`, then to
`edge.x.com`, which carries two `a_record` edges to distinct address assets
holding the same IPv4 value. -/
def a0 : Asset := ⟨0, .fqdn "www.x.com"⟩

def a1 : Asset := ⟨1, .fqdn "cdn.x.com"⟩

def a2 : Asset := ⟨2, .fqdn "edge.x.com"⟩

def ipA : Asset := ⟨10, .ipAddress (.v4 1 2 3 4) "IPv4"⟩

def ipB : Asset := ⟨11, .ipAddress (.v4 1 2 3 4) "IPv4"⟩

def walkDB : DB where
  findByContent := fun t _ => if t = .fqdn "www.x.com" then .ok [a0] else .error "not found"
  findById := fun i _ =>
    if i = 1 then .ok a1 else if i = 2 then .ok a2
    else if i = 10 then .ok ipA else if i = 11 then .ok ipB else .error "not found"
  outgoingRelations := fun a _ ts =>
    if a = a0 ∧ ts = ["cname_record", "srv_record"] then .ok [⟨"cname_record", 1⟩]
    else if a = a1 ∧ ts = ["cname_record"] then .ok [⟨"cname_record", 2⟩]
    else if a = a2 ∧ ts = ["a_record", "aaaa_record"] then .ok [⟨"a_record", 10⟩, ⟨"a_record", 11⟩]
    else .ok []
  create := fun _ _ _ => .error "store is read-only in this scenario"

/-- The pair-generation contract as the spec words it: for every (name,
address-string) combination, parse the address string; on success tag it by
family (`IPv4` if the parsed value is an IPv4 address, `IPv6` if IPv6) and
emit one pair; unparseable strings are silently dropped. -/
def generatePairsSpec (m : AddrMap) : List NameAddrPair :=
  m.flatMap (fun e => e.2.filterMap (fun s => (parseAddr s).map (fun ip =>
    ⟨e.1, ⟨ip, if ip.is4 then "IPv4" else if ip.is6 then "IPv6" else ""⟩⟩)))

/-- A store whose `Create` always succeeds, returning a fixed asset. -/
def createOkDB : DB where
  findByContent := fun _ _ => .error "unused"
  findById := fun _ _ => .error "unused"
  outgoingRelations := fun _ _ _ => .error "unused"
  create := fun _ _ _ => .ok ⟨7, .fqdn "stored"⟩

/-- A store in which every operation fails. -/
def errDB : DB where
  findByContent := fun _ _ => .error "storage failure"
  findById := fun _ _ => .error "storage failure"
  outgoingRelations := fun _ _ _ => .error "storage failure"
  create := fun _ _ _ => .error "storage failure"

/-- A store whose `Create` always fails. -/
def createErrDB : DB where
  findByContent := fun _ _ => .error "unused"
  findById := fun _ _ => .error "unused"
  outgoingRelations := fun _ _ _ => .error "unused"
  create := fun _ _ _ => .error "disk full"

theorem followFirst_calls (db : DB) (since : Nat) (cur : Asset) (rels : List Relation) :
    ∀ c ∈ (followFirst db since cur rels).2, ∃ i s, c = Call.findById i s := by
  induction rels with
  | nil => intro c hc; simp [followFirst] at hc
  | cons rel rest ih =>
    intro c hc
    simp only [followFirst] at hc
    cases h : db.findById rel.toId since with
    | ok found =>
      rw [h] at hc
      simp at hc
      exact ⟨rel.toId, since, hc⟩
    | error e =>
      rw [h] at hc
      simp at hc
      rcases hc with hc | hc
      · exact ⟨rel.toId, since, hc⟩
      · exact ih c hc

theorem aliasWalk_calls (db : DB) (since : Nat) :
    ∀ fuel i cur, ∀ c ∈ (aliasWalk db since fuel i cur).2,
      (∃ j s, c = Call.findById j s) ∨ (∃ a s ts, c = Call.outgoingRelations a s ts) := by
  intro fuel
  induction fuel with
  | zero => intro i cur c hc; simp [aliasWalk] at hc
  | succ n ih =>
    intro i cur c hc
    simp only [aliasWalk] at hc
    cases h : db.outgoingRelations cur since (hopTypes i) with
    | ok rels =>
      rw [h] at hc
      by_cases hr : rels.isEmpty
      · simp [hr] at hc
        exact Or.inr ⟨cur, since, hopTypes i, hc⟩
      · simp [hr] at hc
        rcases hc with hc | hc | hc
        · exact Or.inr ⟨cur, since, hopTypes i, hc⟩
        · exact Or.inl (followFirst_calls db since cur rels c hc)
        · exact ih (i + 1) _ c hc
    | error e =>
      rw [h] at hc
      simp at hc
      exact Or.inr ⟨cur, since, hopTypes i, hc⟩

theorem buildTargets_calls (db : DB) (since : Nat) :
    ∀ fqdns, ∀ c ∈ (buildTargets db since fqdns).2,
      (∃ j s, c = Call.findById j s) ∨ (∃ a s ts, c = Call.outgoingRelations a s ts) := by
  intro fqdns
  induction fqdns with
  | nil => intro c hc; simp [buildTargets] at hc
  | cons a rest ih =>
    intro c hc
    simp only [buildTargets] at hc
    cases h : a.asset with
    | fqdn name =>
      rw [h] at hc
      simp at hc
      rcases hc with hc | hc
      · exact aliasWalk_calls db since 10 1 a c hc
      · exact ih c hc
    | ipAddress ip ty =>
      rw [h] at hc
      exact ih c hc

theorem aggRels_calls (db : DB) (since : Nat) (name : String) :
    ∀ rels m, ∀ c ∈ (aggRels db since name rels m).2, ∃ j s, c = Call.findById j s := by
  intro rels
  induction rels with
  | nil => intro m c hc; simp [aggRels] at hc
  | cons rel rest ih =>
    intro m c hc
    simp only [aggRels] at hc
    cases h : db.findById rel.toId since with
    | ok found =>
      rw [h] at hc
      simp only [] at hc
      cases hf : found.asset with
      | fqdn n =>
        rw [hf] at hc
        simp at hc
        rcases hc with hc | hc
        · exact ⟨rel.toId, since, hc⟩
        · exact ih _ c hc
      | ipAddress ip ty =>
        rw [hf] at hc
        simp at hc
        rcases hc with hc | hc
        · exact ⟨rel.toId, since, hc⟩
        · exact ih _ c hc
    | error e =>
      rw [h] at hc
      simp at hc
      rcases hc with hc | hc
      · exact ⟨rel.toId, since, hc⟩
      · exact ih _ c hc

theorem aggregate_calls (db : DB) (since : Nat) :
    ∀ targets m, ∀ c ∈ (aggregate db since targets m).2,
      (∃ j s, c = Call.findById j s) ∨ (∃ a s ts, c = Call.outgoingRelations a s ts) := by
  intro targets
  induction targets with
  | nil => intro m c hc; simp [aggregate] at hc
  | cons tar rest ih =>
    intro m c hc
    simp only [aggregate] at hc
    cases h : db.outgoingRelations tar.asset since ["a_record", "aaaa_record"] with
    | ok rels =>
      rw [h] at hc
      by_cases hr : rels.isEmpty
      · simp [hr] at hc
        rcases hc with hc | hc
        · exact Or.inr ⟨tar.asset, since, _, hc⟩
        · exact ih _ c hc
      · simp [hr] at hc
        rcases hc with hc | hc | hc
        · exact Or.inr ⟨tar.asset, since, _, hc⟩
        · exact Or.inl (aggRels_calls db since tar.fqdnName rels m c hc)
        · exact ih _ c hc
    | error e =>
      rw [h] at hc
      simp at hc
      rcases hc with hc | hc
      · exact Or.inr ⟨tar.asset, since, _, hc⟩
      · exact ih _ c hc

theorem findNames_calls (db : DB) (since : Nat) :
    ∀ names seen, ∀ c ∈ (findNames db since names seen).2,
      ∃ n ∈ names, c = Call.findByContent (.fqdn n) since := by
  intro names
  induction names with
  | nil => intro seen c hc; simp [findNames] at hc
  | cons name rest ih =>
    intro seen c hc
    simp only [findNames] at hc
    by_cases hs : name ∈ seen
    · rw [if_pos hs] at hc
      obtain ⟨n, hn, he⟩ := ih seen c hc
      exact ⟨n, List.mem_cons_of_mem _ hn, he⟩
    · rw [if_neg hs] at hc
      cases h : db.findByContent (.fqdn name) since with
      | ok la =>
        cases la with
        | nil =>
          rw [h] at hc
          simp at hc
          rcases hc with hc | hc
          · exact ⟨name, List.mem_cons_self _ _, hc⟩
          · obtain ⟨n, hn, he⟩ := ih seen c hc
            exact ⟨n, List.mem_cons_of_mem _ hn, he⟩
        | cons a rest2 =>
          rw [h] at hc
          simp at hc
          rcases hc with hc | hc
          · exact ⟨name, List.mem_cons_self _ _, hc⟩
          · obtain ⟨n, hn, he⟩ := ih _ c hc
            exact ⟨n, List.mem_cons_of_mem _ hn, he⟩
      | error e =>
        rw [h] at hc
        simp at hc
        rcases hc with hc | hc
        · exact ⟨name, List.mem_cons_self _ _, hc⟩
        · obtain ⟨n, hn, he⟩ := ih seen c hc
          exact ⟨n, List.mem_cons_of_mem _ hn, he⟩

theorem namesToAddrs_calls (db : DB) (since : Nat) (names : List String) :
    ∀ c ∈ (namesToAddrs db since names).2,
      (∃ n ∈ names, c = Call.findByContent (.fqdn n) since) ∨
      (∃ j s, c = Call.findById j s) ∨ (∃ a s ts, c = Call.outgoingRelations a s ts) := by
  intro c hc
  simp only [namesToAddrs] at hc
  by_cases h1 : (findNames db since names []).1.isEmpty
  · simp only [h1, if_pos] at hc
    exact Or.inl (findNames_calls db since names [] c hc)
  · simp only [h1, if_neg, Bool.false_eq_true, not_false_iff, ite_false] at hc
    by_cases h2 : (buildTargets db since (findNames db since names []).1).1.isEmpty
    · simp only [h2, ite_true, List.mem_append] at hc
      rcases hc with hc | hc
      · exact Or.inl (findNames_calls db since names [] c hc)
      · exact Or.inr (buildTargets_calls db since _ c hc)
    · simp only [h2, Bool.false_eq_true, not_false_iff, ite_false] at hc
      by_cases h3 : (aggregate db since (buildTargets db since (findNames db since names []).1).1 []).1.isEmpty
      · simp only [h3, ite_true, List.mem_append] at hc
        rcases hc with (hc | hc) | hc
        · exact Or.inl (findNames_calls db since names [] c hc)
        · exact Or.inr (buildTargets_calls db since _ c hc)
        · exact Or.inr (aggregate_calls db since _ [] c hc)
      · simp only [h3, Bool.false_eq_true, not_false_iff, ite_false] at hc
        have hc2 : c ∈ (findNames db since names []).2 ++
            (buildTargets db since (findNames db since names []).1).2 ++
            (aggregate db since (buildTargets db since (findNames db since names []).1).1 []).2 := by
          by_cases h4 : (generatePairsFromAddrMap (aggregate db since (buildTargets db since (findNames db since names []).1).1 []).1).isEmpty
          · rw [if_pos h4] at hc; exact hc
          · rw [if_neg h4] at hc; exact hc
        rw [List.mem_append, List.mem_append] at hc2
        rcases hc2 with (hc | hc) | hc
        · exact Or.inl (findNames_calls db since names [] c hc)
        · exact Or.inr (buildTargets_calls db since _ c hc)
        · exact Or.inr (aggregate_calls db since _ [] c hc)

theorem followFirst_countOutgoing (db : DB) (since : Nat) (cur : Asset)
    (rels : List Relation) : countOutgoing (followFirst db since cur rels).2 = 0 := by
  rw [countOutgoing, List.countP_eq_zero]
  intro c hc
  obtain ⟨i, s, he⟩ := followFirst_calls db since cur rels c hc
  subst he
  simp

theorem aliasWalk_countOutgoing (db : DB) (since : Nat) :
    ∀ fuel i cur, countOutgoing (aliasWalk db since fuel i cur).2 ≤ fuel := by
  intro fuel
  induction fuel with
  | zero => intro i cur; simp [aliasWalk, countOutgoing]
  | succ n ih =>
    intro i cur
    simp only [aliasWalk]
    cases h : db.outgoingRelations cur since (hopTypes i) with
    | ok rels =>
      by_cases hr : rels.isEmpty
      · simp [hr, countOutgoing, List.countP_cons]
      · simp only [hr, Bool.false_eq_true, not_false_iff, ite_false]
        have h1 := followFirst_countOutgoing db since cur rels
        have h2 := ih (i + 1) (followFirst db since cur rels).1
        simp only [countOutgoing, List.countP_cons, List.countP_append, if_true] at h1 h2 ⊢
        omega
    | error e => simp [countOutgoing, List.countP_cons]

/-- C2: for every store behaviour (hence every input graph, cyclic or not)
the alias-chain traversal entered by `NamesToAddrs` makes at most 10
outgoing-relation queries (hops); it is a total function, so it terminates
returning the last asset reached. -/
theorem aliasChain_bounded_hops (db : DB) (since : Nat) (a : Asset) :
    countOutgoing (aliasChain db since a).2 ≤ 10 :=
  aliasWalk_countOutgoing db since 10 1 a

/-- C9: the read path (`NamesToAddrs`) makes no `Create` call against the
store, for every store behaviour, cutoff and name list. -/
theorem namesToAddrs_read_only (db : DB) (since : Nat) (names : List String) :
    ∀ c ∈ (namesToAddrs db since names).2, c.isCreate = false := by
  intro c hc
  rcases namesToAddrs_calls db since names c hc with ⟨n, _, he⟩ | ⟨j, s, he⟩ | ⟨a, s, ts, he⟩ <;>
    subst he <;> rfl

/-- Witness for C9 at a concrete store and name list: the first call of the
trace is a content lookup, and the theorem yields that it is not a
`Create`. -/
theorem namesToAddrs_read_only_witness :
    Call.findByContent (.fqdn "www.x.com") 0 ∈ (namesToAddrs walkDB 0 ["www.x.com"]).2 ∧
    Call.isCreate (Call.findByContent (.fqdn "www.x.com") 0) = false := by
  have h : (namesToAddrs walkDB 0 ["www.x.com"]).2.head? =
      some (Call.findByContent (.fqdn "www.x.com") 0) := rfl
  have hm := List.mem_of_mem_head? h
  exact ⟨hm, namesToAddrs_read_only walkDB 0 ["www.x.com"] _ hm⟩

theorem followFirst_no_outgoing (db : DB) (since : Nat) (cur : Asset) (rels : List Relation)
    (b : Asset) (s : Nat) (ts : List String) :
    Call.outgoingRelations b s ts ∉ (followFirst db since cur rels).2 := by
  intro hc
  obtain ⟨i, s2, he⟩ := followFirst_calls db since cur rels _ hc
  simp at he

theorem aliasWalk_cname_only (db : DB) (since : Nat) :
    ∀ fuel i cur, 2 ≤ i → ∀ b s ts,
      Call.outgoingRelations b s ts ∈ (aliasWalk db since fuel i cur).2 →
      ts = ["cname_record"] := by
  intro fuel
  induction fuel with
  | zero => intro i cur _ b s ts hc; simp [aliasWalk] at hc
  | succ n ih =>
    intro i cur hi b s ts hc
    have hne : i ≠ 1 := by omega
    have hty : hopTypes i = ["cname_record"] := by simp [hopTypes, hne]
    simp only [aliasWalk] at hc
    cases h : db.outgoingRelations cur since (hopTypes i) with
    | ok rels =>
      rw [h] at hc
      by_cases hr : rels.isEmpty
      · simp [hr] at hc
        rw [hc.2.2, hty]
      · simp [hr] at hc
        rcases hc with hc | hc | hc
        · rw [hc.2.2, hty]
        · exact absurd hc (followFirst_no_outgoing db since cur rels b s ts)
        · exact ih (i + 1) _ (by omega) b s ts hc
    | error e =>
      rw [h] at hc
      simp at hc
      rw [hc.2.2, hty]

theorem aliasWalk_head (db : DB) (since : Nat) (fuel i : Nat) (cur : Asset) :
    ∃ rest, (aliasWalk db since (fuel + 1) i cur).2 =
      Call.outgoingRelations cur since (hopTypes i) :: rest := by
  simp only [aliasWalk]
  cases h : db.outgoingRelations cur since (hopTypes i) with
  | ok rels =>
    by_cases hr : rels.isEmpty
    · exact ⟨[], by simp [hr]⟩
    · refine ⟨(followFirst db since cur rels).2 ++
        (aliasWalk db since fuel (i + 1) (followFirst db since cur rels).1).2, ?_⟩
      simp [hr]
  | error e => exact ⟨[], rfl⟩

/-- C3: the alias walk queries both `cname_record` and `srv_record` on the
first hop and only `cname_record` on every later hop; a hop whose
outgoing-relation query yields no relations (or a store error) makes the
current asset terminal, stopping the walk there; when relations exist the
walk continues from the first relation whose destination resolves, a
successful resolution of the first relation being followed directly. -/
theorem aliasChain_hop_structure (db : DB) (since : Nat) :
    (∀ a, ∃ rest, (aliasChain db since a).2 =
      Call.outgoingRelations a since ["cname_record", "srv_record"] :: rest) ∧
    (∀ a b s ts, Call.outgoingRelations b s ts ∈ ((aliasChain db since a).2).tail →
      ts = ["cname_record"]) ∧
    (∀ fuel i a, (db.outgoingRelations a since (hopTypes i) = .ok [] ∨
        (∃ e, db.outgoingRelations a since (hopTypes i) = .error e)) →
      aliasWalk db since (fuel + 1) i a = (a, [Call.outgoingRelations a since (hopTypes i)])) ∧
    (∀ fuel i a rels, db.outgoingRelations a since (hopTypes i) = .ok rels → rels ≠ [] →
      (aliasWalk db since (fuel + 1) i a).1 =
        (aliasWalk db since fuel (i + 1) (followFirst db since a rels).1).1) ∧
    (∀ a rel rels found, db.findById rel.toId since = .ok found →
      followFirst db since a (rel :: rels) = (found, [Call.findById rel.toId since])) := by
  refine ⟨?_, ?_, ?_, ?_, ?_⟩
  · intro a
    have h10 : (10 : Nat) = 9 + 1 := rfl
    rw [aliasChain, h10]
    have hty : hopTypes 1 = ["cname_record", "srv_record"] := rfl
    obtain ⟨rest, hr⟩ := aliasWalk_head db since 9 1 a
    exact ⟨rest, by rw [hr, hty]⟩
  · intro a b s ts hc
    have h10 : (10 : Nat) = 9 + 1 := rfl
    rw [aliasChain, h10] at hc
    simp only [aliasWalk] at hc
    cases h : db.outgoingRelations a since (hopTypes 1) with
    | ok rels =>
      rw [h] at hc
      by_cases hr : rels.isEmpty
      · simp [hr] at hc
      · simp only [hr, Bool.false_eq_true, not_false_iff, ite_false, List.tail_cons,
          List.mem_append] at hc
        rcases hc with hc | hc
        · exact absurd hc (followFirst_no_outgoing db since a rels b s ts)
        · exact aliasWalk_cname_only db since 9 2 _ (by omega) b s ts hc
    | error e =>
      rw [h] at hc
      simp at hc
  · intro fuel i a hcase
    simp only [aliasWalk]
    rcases hcase with h | ⟨e, h⟩
    · rw [h]; simp
    · rw [h]
  · intro fuel i a rels h hne
    have hr : rels.isEmpty = false := by
      cases rels with
      | nil => exact absurd rfl hne
      | cons x xs => rfl
    simp only [aliasWalk]
    rw [h]
    simp [hr]
  · intro a rel rels found h
    simp [followFirst, h]

/-- Witness for C3 at the concrete store `walkDB`: the first hop of the
chain from `www.x.com` queries both record types, a later-hop query uses
only `cname_record`, the asset `edge.x.com` with no cname relations is
terminal, the first hop continues from the resolved first relation, and
`followFirst` resolves the first relation to `cdn.x.com`. -/
theorem aliasChain_hop_structure_witness :
    (∃ rest, (aliasChain walkDB 0 a0).2 =
      Call.outgoingRelations a0 0 ["cname_record", "srv_record"] :: rest) ∧
    (["cname_record"] : List String) = ["cname_record"] ∧
    aliasWalk walkDB 0 1 2 a2 = (a2, [Call.outgoingRelations a2 0 ["cname_record"]]) ∧
    (aliasWalk walkDB 0 10 1 a0).1 =
      (aliasWalk walkDB 0 9 2 (followFirst walkDB 0 a0 [⟨"cname_record", 1⟩]).1).1 ∧
    followFirst walkDB 0 a0 [⟨"cname_record", 1⟩] = (a1, [Call.findById 1 0]) := by
  obtain ⟨h1, h2, h3, h4, h5⟩ := aliasChain_hop_structure walkDB 0
  have htail : ((aliasChain walkDB 0 a0).2).tail =
      [Call.findById 1 0, Call.outgoingRelations a1 0 ["cname_record"],
       Call.findById 2 0, Call.outgoingRelations a2 0 ["cname_record"]] := rfl
  refine ⟨h1 a0, ?_, ?_, ?_, ?_⟩
  · refine h2 a0 a1 0 ["cname_record"] ?_
    rw [htail]
    simp
  · have := h3 0 2 a2 (Or.inl rfl)
    simpa [hopTypes] using this
  · have h10 : (10 : Nat) = 9 + 1 := rfl
    rw [h10]
    exact h4 9 1 a0 [⟨"cname_record", 1⟩] rfl (by simp)
  · exact h5 a0 ⟨"cname_record", 1⟩ [] a1 rfl

theorem mapEnsure_good (ns : List String) (m : AddrMap) (name : String)
    (hn : name ∈ ns) (hm : ∀ e ∈ m, e.1 ∈ ns ∧ e.2.Nodup) :
    ∀ e ∈ mapEnsure m name, e.1 ∈ ns ∧ e.2.Nodup := by
  intro e he
  rw [mapEnsure] at he
  by_cases h : name ∈ m.map Prod.fst
  · rw [if_pos h] at he
    exact hm e he
  · rw [if_neg h] at he
    rcases List.mem_append.mp he with he | he
    · exact hm e he
    · rw [List.mem_singleton] at he
      subst he
      exact ⟨hn, List.nodup_nil⟩

theorem mapInsert_good (ns : List String) (m : AddrMap) (name addr : String)
    (hm : ∀ e ∈ m, e.1 ∈ ns ∧ e.2.Nodup) :
    ∀ e ∈ mapInsert m name addr, e.1 ∈ ns ∧ e.2.Nodup := by
  intro e he
  rw [mapInsert, List.mem_map] at he
  obtain ⟨e0, he0, heq⟩ := he
  obtain ⟨h1, h2⟩ := hm e0 he0
  by_cases h : e0.1 = name
  · rw [if_pos h] at heq
    subst heq
    refine ⟨h1, ?_⟩
    by_cases ha : addr ∈ e0.2
    · rw [if_pos ha]
      exact h2
    · rw [if_neg ha]
      rw [List.nodup_append]
      exact ⟨h2, List.nodup_singleton addr, by simpa [List.disjoint_singleton] using ha⟩
  · rw [if_neg h] at heq
    subst heq
    exact ⟨h1, h2⟩

theorem aggRels_good (db : DB) (since : Nat) (ns : List String) (name : String)
    (hn : name ∈ ns) :
    ∀ rels m, (∀ e ∈ m, e.1 ∈ ns ∧ e.2.Nodup) →
      ∀ e ∈ (aggRels db since name rels m).1, e.1 ∈ ns ∧ e.2.Nodup := by
  intro rels
  induction rels with
  | nil =>
    intro m hm e he
    simp only [aggRels] at he
    exact hm e he
  | cons rel rest ih =>
    intro m hm e he
    simp only [aggRels] at he
    cases h : db.findById rel.toId since with
    | ok found =>
      rw [h] at he
      simp only [] at he
      cases hf : found.asset with
      | fqdn n =>
        rw [hf] at he
        simp only [] at he
        exact ih _ (mapEnsure_good ns m name hn hm) e he
      | ipAddress ip ty =>
        rw [hf] at he
        simp only [] at he
        exact ih _ (mapInsert_good ns _ name ip.render
          (mapEnsure_good ns m name hn hm)) e he
    | error e2 =>
      rw [h] at he
      simp only [] at he
      exact ih _ (mapEnsure_good ns m name hn hm) e he

theorem aggregate_good (db : DB) (since : Nat) (ns : List String) :
    ∀ targets m, (∀ t ∈ targets, Target.fqdnName t ∈ ns) →
      (∀ e ∈ m, e.1 ∈ ns ∧ e.2.Nodup) →
      ∀ e ∈ (aggregate db since targets m).1, e.1 ∈ ns ∧ e.2.Nodup := by
  intro targets
  induction targets with
  | nil =>
    intro m _ hm e he
    simp only [aggregate] at he
    exact hm e he
  | cons tar rest ih =>
    intro m ht hm e he
    have htar : Target.fqdnName tar ∈ ns := ht tar (List.mem_cons_self _ _)
    have hrest : ∀ t ∈ rest, Target.fqdnName t ∈ ns :=
      fun t h => ht t (List.mem_cons_of_mem _ h)
    simp only [aggregate] at he
    cases h : db.outgoingRelations tar.asset since ["a_record", "aaaa_record"] with
    | ok rels =>
      rw [h] at he
      by_cases hr : rels.isEmpty
      · simp only [hr, ite_true] at he
        exact ih m hrest hm e he
      · simp only [hr, Bool.false_eq_true, not_false_iff, ite_false] at he
        exact ih _ hrest (aggRels_good db since ns tar.fqdnName htar rels m hm) e he
    | error e2 =>
      rw [h] at he
      simp only [] at he
      exact ih m hrest hm e he

/-- C4: the aggregation step keys every collected entry by the originating
name of some target (never by a terminal asset name outside that set), and
every entry's address-string list is duplicate-free — even when several
relation edges from the same terminal asset reach address assets holding
identical address values. -/
theorem aggregate_origin_keys_dedup (db : DB) (since : Nat) (targets : List Target) :
    ∀ e ∈ (aggregate db since targets []).1,
      e.1 ∈ targets.map Target.fqdnName ∧ e.2.Nodup :=
  aggregate_good db since (targets.map Target.fqdnName) targets []
    (fun t ht => List.mem_map_of_mem _ ht) (by simp)

/-- Witness for C4 at `walkDB`: the terminal asset `edge.x.com` has two
`a_record` edges to distinct address assets holding the same value
`1.2.3.4`; the aggregate holds that address once, keyed by the originating
name `www.x.com` (not `edge.x.com`). -/
theorem aggregate_origin_keys_dedup_witness :
    ("www.x.com", ["1.2.3.4"]) ∈ (aggregate walkDB 0 [⟨"www.x.com", a2⟩] []).1 ∧
    ("www.x.com" ∈ ([⟨"www.x.com", a2⟩] : List Target).map Target.fqdnName ∧
      (["1.2.3.4"] : List String).Nodup) := by
  have hmem : ("www.x.com", ["1.2.3.4"]) ∈ (aggregate walkDB 0 [⟨"www.x.com", a2⟩] []).1 := by
    have h : (aggregate walkDB 0 [⟨"www.x.com", a2⟩] []).1 = [("www.x.com", ["1.2.3.4"])] := rfl
    rw [h]
    exact List.mem_singleton.mpr rfl
  exact ⟨hmem, aggregate_origin_keys_dedup walkDB 0 _ _ hmem⟩

/-- C5: `NamesToAddrs` returns the error "no names to query" exactly when
the input name list (including the empty list) yields no findable assets;
"no targets to query" exactly when names were found but no targets were
derived; "no pairs to process" exactly when targets exist but aggregation
produced an empty mapping; and "no addresses were discovered" exactly when
the mapping is non-empty but the generated pair list is empty. -/
theorem namesToAddrs_error_conditions (db : DB) (since : Nat) (names : List String) :
    ((namesToAddrs db since names).1 = .error "no names to query" ↔
      (findNames db since names []).1 = []) ∧
    ((namesToAddrs db since names).1 = .error "no targets to query" ↔
      (findNames db since names []).1 ≠ [] ∧
      (buildTargets db since (findNames db since names []).1).1 = []) ∧
    ((namesToAddrs db since names).1 = .error "no pairs to process" ↔
      (findNames db since names []).1 ≠ [] ∧
      (buildTargets db since (findNames db since names []).1).1 ≠ [] ∧
      (aggregate db since (buildTargets db since (findNames db since names []).1).1 []).1 = []) ∧
    ((namesToAddrs db since names).1 = .error "no addresses were discovered" ↔
      (findNames db since names []).1 ≠ [] ∧
      (buildTargets db since (findNames db since names []).1).1 ≠ [] ∧
      (aggregate db since (buildTargets db since (findNames db since names []).1).1 []).1 ≠ [] ∧
      generatePairsFromAddrMap
        (aggregate db since (buildTargets db since (findNames db since names []).1).1 []).1 = []) := by
  have d12 : ("no names to query" : String) ≠ "no targets to query" := by decide
  have d13 : ("no names to query" : String) ≠ "no pairs to process" := by decide
  have d14 : ("no names to query" : String) ≠ "no addresses were discovered" := by decide
  have d23 : ("no targets to query" : String) ≠ "no pairs to process" := by decide
  have d24 : ("no targets to query" : String) ≠ "no addresses were discovered" := by decide
  have d34 : ("no pairs to process" : String) ≠ "no addresses were discovered" := by decide
  simp only [namesToAddrs]
  by_cases h1 : (findNames db since names []).1.isEmpty
  · have h1e : (findNames db since names []).1 = [] := List.isEmpty_iff.mp h1
    simp [h1, h1e, d12, d13, d14]
  · have h1e : (findNames db since names []).1 ≠ [] := by
      intro h
      exact h1 (List.isEmpty_iff.mpr h)
    by_cases h2 : (buildTargets db since (findNames db since names []).1).1.isEmpty
    · have h2e : (buildTargets db since (findNames db since names []).1).1 = [] :=
        List.isEmpty_iff.mp h2
    
      simp [h1, h2, h1e, h2e, d12.symm, d23, d24]
    · have h2e : (buildTargets db since (findNames db since names []).1).1 ≠ [] := by
        intro h
        exact h2 (List.isEmpty_iff.mpr h)
      by_cases h3 : (aggregate db since (buildTargets db since
          (findNames db since names []).1).1 []).1.isEmpty
      · have h3e : (aggregate db since (buildTargets db since
            (findNames db since names []).1).1 []).1 = [] := List.isEmpty_iff.mp h3
        simp [h1, h2, h3, h1e, h2e, h3e, d13.symm, d23.symm, d34]
      · have h3e : (aggregate db since (buildTargets db since
            (findNames db since names []).1).1 []).1 ≠ [] := by
          intro h
          exact h3 (List.isEmpty_iff.mpr h)
        by_cases h4 : (generatePairsFromAddrMap (aggregate db since (buildTargets db since
            (findNames db since names []).1).1 []).1).isEmpty
        · have h4e : generatePairsFromAddrMap (aggregate db since (buildTargets db since
              (findNames db since names []).1).1 []).1 = [] := List.isEmpty_iff.mp h4
          simp [h1, h2, h3, h4, h1e, h2e, h3e, h4e, d14.symm, d24.symm, d34.symm]
        · have h4e : generatePairsFromAddrMap (aggregate db since (buildTargets db since
              (findNames db since names []).1).1 []).1 ≠ [] := by
            intro h
            exact h4 (List.isEmpty_iff.mpr h)
          simp [h1, h2, h3, h4, h1e, h2e, h3e, h4e]

theorem genPairsAddrs_eq_filterMap (name : String) (l : List String) :
    genPairsAddrs name l = l.filterMap (fun s => (parseAddr s).map (fun ip =>
      ⟨name, ⟨ip, if ip.is4 then "IPv4" else if ip.is6 then "IPv6" else ""⟩⟩)) := by
  induction l with
  | nil => rfl
  | cons s rest ih =>
    simp only [genPairsAddrs, List.filterMap_cons]
    cases h : parseAddr s with
    | none => simp [h, ih]
    | some ip => simp [h, ih]

/-- C6: the pair generator emits exactly one pair per parseable (name,
address-string) combination, tagged `IPv4` when the parsed value is IPv4
and `IPv6` when it is IPv6, and silently drops every combination whose
string does not parse — it equals the generator the spec describes. -/
theorem generatePairs_matches_spec (m : AddrMap) :
    generatePairsFromAddrMap m = generatePairsSpec m := by
  induction m with
  | nil => rfl
  | cons e rest ih =>
    simp [generatePairsFromAddrMap, generatePairsSpec, genPairsAddrs_eq_filterMap, ih,
      List.flatMap_cons]

/-- C1: at the failing input "not-an-ip" (which does not parse),
`UpsertAddress` does not fail with an address-format error — it invokes the
store's `Create` with the nil result of `buildIPAddress` as payload and
returns whatever the store returns (here: success).  This contradicts the
claimed contract that parse failure yields a format error with no effective
`Create`; the sibling path `addrRecord` does perform the nil check the
claim describes. -/
theorem upsertAddress_invalid_input_still_creates :
    parseAddr "not-an-ip" = none ∧
    upsertAddress createOkDB "not-an-ip" =
      (.ok ⟨7, .fqdn "stored"⟩, [Call.create none "" none]) :=
  ⟨rfl, rfl⟩

/-- C7 counterexample: `NamesToAddrs` passes the input name to
`FindByContent` exactly as given — the single lookup call of the trace
carries the raw string "  A.Example.COM ", not its normalization
"a.example.com". -/
theorem namesToAddrs_unnormalized_lookup :
    (namesToAddrs errDB 0 ["  A.Example.COM "]).2 =
      [Call.findByContent (.fqdn "  A.Example.COM ") 0] ∧
    normalizeName "  A.Example.COM " = "a.example.com" ∧
    ("  A.Example.COM " : String) ≠ "a.example.com" :=
  ⟨rfl, rfl, by decide⟩

/-- C7 (amended): `NamesToAddrs` passes every input name to `FindByContent`
verbatim — each content lookup in its trace uses one of the input names
exactly as given, with no normalization — while the Upsert path
(`UpsertFQDN`, modelled from the spec) lowercases and trims the name before
creating the Name asset. -/
theorem lookup_verbatim_upsert_normalized (db : DB) (since : Nat) (names : List String)
    (name : String) :
    (∀ t s, Call.findByContent t s ∈ (namesToAddrs db since names).2 →
      ∃ n ∈ names, t = .fqdn n ∧ s = since) ∧
    (upsertFQDN db name).2 = [Call.create none "" (some (.fqdn (normalizeName name)))] := by
  constructor
  · intro t s hc
    rcases namesToAddrs_calls db since names _ hc with ⟨n, hn, he⟩ | ⟨j, s2, he⟩ | ⟨b, s2, ts, he⟩
    · refine ⟨n, hn, ?_, ?_⟩
      · injection he with h1 h2
      · injection he with h1 h2
    · simp at he
    · simp at he
  · rfl

/-- Witness for the amended C7 at concrete inputs: the lookup call in the
trace of `namesToAddrs walkDB 0 ["www.x.com"]` uses the verbatim input
name, and the modelled `UpsertFQDN` normalizes "  A.Example.COM ". -/
theorem lookup_verbatim_upsert_normalized_witness :
    (∃ n ∈ ["www.x.com"], OamAsset.fqdn "www.x.com" = OamAsset.fqdn n ∧ (0 : Nat) = 0) ∧
    (upsertFQDN walkDB "  A.Example.COM ").2 =
      [Call.create none "" (some (.fqdn "a.example.com"))] := by
  obtain ⟨h1, h2⟩ := lookup_verbatim_upsert_normalized walkDB 0 ["www.x.com"] "  A.Example.COM "
  constructor
  · refine h1 (.fqdn "www.x.com") 0 ?_
    have h : (namesToAddrs walkDB 0 ["www.x.com"]).2.head? =
        some (Call.findByContent (.fqdn "www.x.com") 0) := rfl
    exact List.mem_of_mem_head? h
  · exact h2.trans (by rfl)

/-- C8 counterexample: with a store whose lookups fail, `NamesToAddrs`
returns the generic "no names to query" condition, not the store's
"storage failure" error — the store error is swallowed, not propagated. -/
theorem namesToAddrs_swallows_store_error :
    errDB.findByContent (.fqdn "x.com") 0 = .error "storage failure" ∧
    (namesToAddrs errDB 0 ["x.com"]).1 = .error "no names to query" :=
  ⟨rfl, rfl⟩

/-- C8 (amended): the Upsert path propagates store errors unchanged —
`UpsertAddress` returns exactly the store's `Create` result, and
`addrRecord` forwards a failing name upsert verbatim and otherwise returns
exactly the store's record-`Create` result — and performs no retries (one
store call for `UpsertAddress`, at most two for `addrRecord`); the read
path `NamesToAddrs` never propagates a store error: its only errors are the
four empty-stage conditions. -/
theorem store_error_handling (db : DB) (since : Nat) (names : List String)
    (fqdn addr rrtype : String) :
    (∀ e, (namesToAddrs db since names).1 = .error e →
      e = "no names to query" ∨ e = "no targets to query" ∨
      e = "no pairs to process" ∨ e = "no addresses were discovered") ∧
    (upsertAddress db addr).1 = db.create none ""
      ((buildIPAddress addr).map (fun ip => OamAsset.ipAddress ip.address ip.ty)) ∧
    (upsertAddress db addr).2.length = 1 ∧
    (∀ e, (upsertFQDN db fqdn).1 = .error e →
      (addrRecord db fqdn addr rrtype).1 = .error e) ∧
    (∀ a ip, (upsertFQDN db fqdn).1 = .ok a → buildIPAddress addr = some ip →
      (addrRecord db fqdn addr rrtype).1 =
        db.create (some a) rrtype (some (.ipAddress ip.address ip.ty))) ∧
    (addrRecord db fqdn addr rrtype).2.length ≤ 2 := by
  refine ⟨?_, rfl, rfl, ?_, ?_, ?_⟩
  · intro e h
    simp only [namesToAddrs] at h
    by_cases h1 : (findNames db since names []).1.isEmpty
    · simp [h1] at h
      exact Or.inl h.symm
    · simp only [h1, Bool.false_eq_true, not_false_iff, ite_false] at h
      by_cases h2 : (buildTargets db since (findNames db since names []).1).1.isEmpty
      · simp [h2] at h
        exact Or.inr (Or.inl h.symm)
      · simp only [h2, Bool.false_eq_true, not_false_iff, ite_false] at h
        by_cases h3 : (aggregate db since (buildTargets db since
            (findNames db since names []).1).1 []).1.isEmpty
        · simp [h3] at h
          exact Or.inr (Or.inr (Or.inl h.symm))
        · simp only [h3, Bool.false_eq_true, not_false_iff, ite_false] at h
          by_cases h4 : (generatePairsFromAddrMap (aggregate db since (buildTargets db since
              (findNames db since names []).1).1 []).1).isEmpty
          · simp [h4] at h
            exact Or.inr (Or.inr (Or.inr h.symm))
          · simp [h4] at h
  · intro e h
    simp only [upsertFQDN] at h
    simp only [addrRecord, upsertFQDN]
    cases hc : db.create none "" (some (.fqdn (normalizeName fqdn))) with
    | ok a => rw [hc] at h; exact absurd h (by simp)
    | error e2 =>
      rw [hc] at h
      simp at h
      subst h
      rfl
  · intro a ip ha hip
    simp only [upsertFQDN] at ha
    simp only [addrRecord, upsertFQDN, ha, hip]
  · simp only [addrRecord, upsertFQDN]
    cases hc : db.create none "" (some (.fqdn (normalizeName fqdn))) with
    | ok a =>
      cases hb : buildIPAddress addr with
      | none => simp
      | some ip => simp
    | error e2 => simp

/-- Witness for the amended C8 at concrete stores: the generic no-names
condition is one of the four stage errors; a failing name `Create` is
forwarded verbatim by `UpsertA`'s record path; and with a succeeding name
upsert the record path returns exactly the store's `Create` result. -/
theorem store_error_handling_witness :
    ("no names to query" = "no names to query" ∨ "no names to query" = "no targets to query" ∨
      "no names to query" = "no pairs to process" ∨
      "no names to query" = "no addresses were discovered") ∧
    (addrRecord createErrDB "a.com" "1.2.3.4" "a_record").1 = .error "disk full" ∧
    (addrRecord createOkDB "a.com" "1.2.3.4" "a_record").1 =
      createOkDB.create (some ⟨7, .fqdn "stored"⟩) "a_record"
        (some (.ipAddress (.v4 1 2 3 4) "IPv4")) := by
  obtain ⟨g1, _, _, _, _, _⟩ := store_error_handling errDB 0 ["x.com"] "a.com" "1.2.3.4" "a_record"
  obtain ⟨_, _, _, g4, _, _⟩ :=
    store_error_handling createErrDB 0 ["x.com"] "a.com" "1.2.3.4" "a_record"
  obtain ⟨_, _, _, _, g5, _⟩ :=
    store_error_handling createOkDB 0 ["x.com"] "a.com" "1.2.3.4" "a_record"
  refine ⟨g1 "no names to query" rfl, g4 "disk full" rfl, ?_⟩
  exact g5 ⟨7, .fqdn "stored"⟩ ⟨.v4 1 2 3 4, "IPv4"⟩ rfl rfl

/-- C10: when the name upsert succeeds but the address does not parse,
`UpsertA` and `UpsertAAAA` return the build error while the Name asset's
`Create` call has already been made — the trace holds exactly that one
call, with the normalized name payload and no parent — and no address
asset or record edge is created. -/
theorem upsert_records_not_atomic (db : DB) (fqdn addr : String) (a : Asset)
    (hname : db.create none "" (some (.fqdn (normalizeName fqdn))) = .ok a)
    (haddr : parseAddr addr = none) :
    (upsertA db fqdn addr).1 = .error "failed to build the OAM IPAddress" ∧
    (upsertA db fqdn addr).2 = [Call.create none "" (some (.fqdn (normalizeName fqdn)))] ∧
    (upsertAAAA db fqdn addr).1 = .error "failed to build the OAM IPAddress" ∧
    (upsertAAAA db fqdn addr).2 = [Call.create none "" (some (.fqdn (normalizeName fqdn)))] := by
  have hb : buildIPAddress addr = none := by rw [buildIPAddress, haddr]
  simp only [upsertA, upsertAAAA, addrRecord, upsertFQDN, hname, hb]
  exact ⟨trivial, trivial, trivial, trivial⟩

/-- Witness for C10 at a concrete store and the failing input
"not-an-ip": the name asset is created, the record upsert errors, and the
trace holds only the name-create call. -/
theorem upsert_records_not_atomic_witness :
    createOkDB.create none "" (some (.fqdn (normalizeName "A.Example.COM "))) =
      .ok ⟨7, .fqdn "stored"⟩ ∧
    parseAddr "not-an-ip" = none ∧
    (upsertA createOkDB "A.Example.COM " "not-an-ip").1 =
      .error "failed to build the OAM IPAddress" ∧
    (upsertA createOkDB "A.Example.COM " "not-an-ip").2 =
      [Call.create none "" (some (.fqdn (normalizeName "A.Example.COM ")))] := by
  obtain ⟨h1, h2, _, _⟩ := upsert_records_not_atomic createOkDB "A.Example.COM " "not-an-ip"
    ⟨7, .fqdn "stored"⟩ rfl rfl
  exact ⟨rfl, rfl, h1, h2⟩

end Graph
